import Mathlib

/-!
# A verification development for the MSH shell (`src/msh.c`)

This file gives a shallow embedding of the command execution engine of the
MSH shell: the tokenizer `msh_split_line` (built on `strtok` semantics), the
builtin registry (`builtin_str` and the builtin handlers), the execution
dispatcher `msh_execute`, the pipeline launcher `msh_pipe`, and the per-line
segment loop of `msh_loop` (the `strtok_r`-on-`&` loop with the
`strchr(tempLine, '|')` routing flag).

Modelling conventions:
* C strings are `List Char` / `String`; a `NULL`-terminated `char **`
  argument vector is a `List String` (the `NULL` sentinel is the end of the
  list, so `args[i] == NULL` in C corresponds to `args.get? i = none`).
* Reading through a `NULL` pointer (`strcpy` from `args[i]` when that slot
  is the sentinel) is undefined behaviour; the model maps it to a dedicated
  `crash` outcome.
* Operating-system outcomes that the code branches on are passed in as
  parameters: `pipeOk` for the success of `pipe(2)`, `execOk` for the
  success of `execlp(3)`, `chdirOk` for `chdir(2)`.  `fork(2)` is assumed
  to succeed (no claim under study concerns fork failure inside the
  pipeline launcher).
* The C `int status` of `msh_loop` is uninitialized at the first read; the
  model therefore takes the incoming status as an explicit parameter.
-/

namespace Msh

/-! ## Tokenizer: `msh_split_line` (src/msh.c lines 642-680)

`MSH_TOK_DELIM` is `" \t\r\n\a"`; `strtok` splits the line into the maximal
runs of non-delimiter characters, skipping runs of delimiters.  The same
`strtok` semantics (with delimiter set `{'&'}`) drives the segment loop of
`msh_loop`, so the splitter is defined generically in the delimiter
predicate. -/

/-- The delimiter set `MSH_TOK_DELIM = " \t\r\n\a"` (`'\a'` is the bell
character, code 7). -/
def isDelim (c : Char) : Bool :=
  c = ' ' || c = '\t' || c = '\r' || c = '\n' || c = '\x07'

/-- Single left-to-right scan of `strtok`: `cur` is the (reversed) run of
non-delimiter characters read since the last delimiter; a delimiter (or the
end of the line) flushes a non-empty run as one token. -/
def strtokAux (p : Char → Bool) : List Char → List Char → List (List Char)
  | [], cur => if cur.isEmpty then [] else [cur.reverse]
  | c :: cs, cur =>
    if p c then
      if cur.isEmpty then strtokAux p cs [] else cur.reverse :: strtokAux p cs []
    else strtokAux p cs (c :: cur)

/-- `strtok` semantics: the maximal runs of non-delimiter characters, in
order, empty runs skipped.  This is the loop
`token = strtok(line, DELIM); while (token != NULL) ...` of
`msh_split_line`, and (with delimiter `'&'`) the segment iteration
`strtok_r(line, "&", &line)` of `msh_loop`. -/
def strtokenize (p : Char → Bool) (l : List Char) : List (List Char) :=
  strtokAux p l []

/-- `msh_split_line`: split a raw line into the `NULL`-terminated token
vector (src/msh.c lines 649-680).  The `NULL` sentinel of the C array is
the end of the returned list. -/
def msh_split_line (line : List Char) : List String :=
  (strtokenize isDelim line).map (fun t => String.mk t)

/-! ## Builtin registry and dispatcher (src/msh.c lines 326-416, 559-580) -/

/-- The builtin name table `builtin_str` (src/msh.c lines 330-335). -/
def builtin_str : List String := ["cd", "help", "exit", "pwd"]

/-- The continuation signal returned by the builtin handlers: `msh_exit`
returns 0 (src/msh.c line 415); `msh_cd`, `msh_help`, `msh_pwd` all return
1 (lines 367, 385, 405). -/
def builtinRet (name : String) : Int :=
  if name = "exit" then 0 else 1

/-- Observable behaviour of one `msh_cd` call (src/msh.c lines 375-386):
whether the usage message went to standard error, which directory (if any)
was passed to `chdir`, whether a `chdir` failure was reported via `perror`,
and the returned continuation signal. -/
structure CdRun where
  usageToStderr : Bool
  chdirCalled : Option String
  chdirFailReported : Bool
  ret : Int
deriving DecidableEq, Repr

/-- `msh_cd` (src/msh.c lines 375-386): `args[1] == NULL` means the vector
has fewer than two entries before the sentinel, i.e. `args.get? 1 = none`.
`chdirOk d` is the environment's answer to `chdir(d) == 0`. -/
def msh_cd (chdirOk : String → Bool) (args : List String) : CdRun :=
  match args.get? 1 with
  | none => { usageToStderr := true, chdirCalled := none, chdirFailReported := false, ret := 1 }
  | some d =>
      { usageToStderr := false, chdirCalled := some d,
        chdirFailReported := !chdirOk d, ret := 1 }

/-- Which action `msh_execute` (src/msh.c lines 564-580) takes on a token
vector: `args[0] == NULL` is a no-op; a first token matching the builtin
table (a linear scan with `strcmp`; the names are distinct, so membership
is equivalent) invokes that builtin; otherwise `msh_launch`. -/
inductive Action where
  | execEmpty : Action
  | execBuiltin (name : String) (args : List String) : Action
  | execExternal (args : List String) : Action
  | pipeline (args : List String) : Action
deriving DecidableEq, Repr

/-- The action selected by `msh_execute` (src/msh.c lines 564-580). -/
def msh_executeAction (args : List String) : Action :=
  match args with
  | [] => .execEmpty
  | a0 :: _ => if builtin_str.contains a0 then .execBuiltin a0 args else .execExternal args

/-- The continuation signal returned by `msh_execute`: 1 for an empty
command (line 570), the handler's value for a builtin (line 575; only
`msh_exit` returns 0), and 1 from `msh_launch` (line 556). -/
def msh_executeRet (args : List String) : Int :=
  match args with
  | [] => 1
  | a0 :: _ => if builtin_str.contains a0 then builtinRet a0 else 1

/-! ## Pipeline launcher: `msh_pipe` (src/msh.c lines 423-528) -/

/-- One step of the argument-consolidation loops (src/msh.c lines 435-446
and 461-472): the buffers `inputArgsV` / `outputArgsV` start as the
sentinel string `"\n"` (from the `{'\n'}` initializer); the first real
token replaces the sentinel via `strcpy`, later tokens are appended with a
space via `strcat`. -/
def joinAcc (acc : String) (t : String) : String :=
  if acc = "\n" then t else acc ++ " " ++ t

/-- The C loop `for (i = 1; args[i] != NULL; i++) if (strcmp(args[i], "|") == 0)
pipeLoc = i;` (src/msh.c lines 450-456): index of the last `"|"` token at
position `≥ 1`, or `-1` if there is none.  `i` is the index of the head of
`ts` in the original vector. -/
def lastPipeAux (i : Nat) (ts : List String) (acc : Int) : Int :=
  match ts with
  | [] => acc
  | t :: rest => lastPipeAux (i + 1) rest (if t = "|" then (i : Int) else acc)

/-- `pipeLoc` just before the `pipeLoc++` of src/msh.c line 457. -/
def lastPipeIdx (args : List String) : Int :=
  lastPipeAux 1 (args.drop 1) (-1)

/-- The exec invocation of one side of the pipe (src/msh.c lines 488-495
and 509-516): the program name, and the consolidated extra argument unless
the buffer still holds the `"\n"` sentinel, in which case `execlp` is
called with no extra argument. -/
def execPair (name : String) (v : String) : String × Option String :=
  (name, if v = "\n" then none else some v)

/-- Result of one `msh_pipe` call as seen from the parent process. -/
inductive PipeRun where
  /-- `strcpy` from a `NULL` slot of `args` (`args[0]` at line 434 or
  `args[pipeLoc]` at line 460): undefined behaviour, the process crashes. -/
  | crash : PipeRun
  /-- `pipe(fd)` failed: `perror("Pipe error\n")` and `return 0`
  (src/msh.c lines 476-480). -/
  | pipeFailed : PipeRun
  /-- Both children were forked; the producer is exec'd with its standard
  output on the pipe, the consumer with its standard input on the pipe; the
  parent closes both ends, waits twice and returns 1 (lines 481-527). -/
  | launched (producer consumer : String × Option String) : PipeRun
deriving DecidableEq, Repr

/-- `msh_pipe` (src/msh.c lines 423-528), parameterized by the success of
the `pipe(2)` call.  The steps, in source order: consolidate
`inputArgs`/`inputArgsV` from `args[0]` and the tokens before the first
`"|"` (lines 434-446); locate the last `"|"` at index `≥ 1` and increment
(lines 450-457); read `args[pipeLoc]` — a crash if that slot is the `NULL`
sentinel (line 460); consolidate `outputArgsV` (lines 461-472); create the
pipe (lines 476-480); fork and exec both sides (lines 481-527). -/
def msh_pipe (pipeOk : Bool) (args : List String) : PipeRun :=
  match args with
  | [] => .crash
  | a0 :: rest =>
    match (a0 :: rest).get? (lastPipeIdx (a0 :: rest) + 1).toNat with
    | none => .crash
    | some outputArgs =>
      if pipeOk then
        .launched
          (execPair a0 ((rest.takeWhile (fun t => t ≠ "|")).foldl joinAcc "\n"))
          (execPair outputArgs
            (((a0 :: rest).drop ((lastPipeIdx (a0 :: rest) + 1).toNat + 1)).foldl
              joinAcc "\n"))
      else .pipeFailed

/-- The continuation signal `msh_pipe` hands back to `msh_loop`: none on a
crash, 0 after a pipe failure (line 479), 1 otherwise (line 527). -/
def pipeRunRet : PipeRun → Option Int
  | .crash => none
  | .pipeFailed => some 0
  | .launched _ _ => some 1

/-- How a pipeline child finishes. -/
inductive ChildEnd where
  /-- `execlp` succeeded: the process image is replaced. -/
  | imageReplaced (prog : String) (extra : Option String) : ChildEnd
  /-- `execlp` failed and control fell off the exec call: the child keeps
  executing `msh_pipe`'s remaining code and returns the given value into
  `msh_loop`, i.e. the failed child continues running the REPL. -/
  | returnedToLoop (ret : Int) : ChildEnd
deriving DecidableEq, Repr

/-- Observable behaviour of one pipeline child. -/
structure ChildRun where
  /-- File descriptors closed before the exec attempt. -/
  closedBeforeExec : List Nat
  /-- The standard descriptor the pipe end was duplicated onto. -/
  dupedOnto : Nat
  /-- Whether any error message is printed when `execlp` fails (there is
  no `perror` call in either child branch of `msh_pipe`). -/
  reportsExecFailure : Bool
  /-- How the child finishes. -/
  outcome : ChildEnd
deriving DecidableEq, Repr

/-- The consumer child, `pid1 == 0` (src/msh.c lines 483-499): close the
write end, `dup2` the read end onto standard input (fd 0), close the read
end, `execlp` the consumer command.  On exec failure nothing is printed and
control falls out of the `if` to the `return 1` at line 527. -/
def consumerChild (execOk : Bool) (fdRead fdWrite : Nat)
    (cmd : String × Option String) : ChildRun :=
  { closedBeforeExec := [fdWrite, fdRead], dupedOnto := 0,
    reportsExecFailure := false,
    outcome := if execOk then .imageReplaced cmd.1 cmd.2 else .returnedToLoop 1 }

/-- The producer child, `pid2 == 0` (src/msh.c lines 504-519): close the
read end, `dup2` the write end onto standard output (fd 1), close the
write end, `execlp` the producer command.  On exec failure nothing is
printed and control falls through the parent's `close`/`waitpid` calls to
the `return 1` at line 527. -/
def producerChild (execOk : Bool) (fdRead fdWrite : Nat)
    (cmd : String × Option String) : ChildRun :=
  { closedBeforeExec := [fdRead, fdWrite], dupedOnto := 1,
    reportsExecFailure := false,
    outcome := if execOk then .imageReplaced cmd.1 cmd.2 else .returnedToLoop 1 }

/-! ## The per-line segment loop of `msh_loop` (src/msh.c lines 685-734)

The inner loop iterates `token = strtok_r(line, "&", &line)`.  The first
such call writes a `'\0'` over the `'&'` that terminates the first segment
(later calls only write further to the right), so from the first iteration
on, the C string at `tempLine` — the start of the original buffer — is the
leading run of `'&'` characters followed by the first segment.  Every
iteration re-evaluates `strchr(tempLine, '|')` against that same string,
and when the flag is set it dispatches `tempLine` itself (not the current
token) to `msh_pipe`. -/

/-- The C string at `tempLine` after the first `strtok_r` call.  If the
line has no non-`'&'` character, `strtok_r` returns `NULL` at once, the
loop body never runs and the buffer is unmodified. -/
def tempLineStr (l : List Char) : List Char :=
  if (l.dropWhile (fun c => c = '&')).isEmpty then l
  else
    l.takeWhile (fun c => c = '&') ++
      (l.dropWhile (fun c => c = '&')).takeWhile (fun c => c ≠ '&')

/-- The segments produced by the `strtok_r(line, "&", &line)` iteration. -/
def strtokSegs (l : List Char) : List (List Char) :=
  strtokenize (fun c => c = '&') l

/-- In-place effect of `msh_split_line` (`strtok`) on the C string it
tokenizes: `strtok` writes a `'\0'` over the delimiter that ends each
token, so the string seen from the start of the buffer afterwards is the
leading delimiter run plus the first token — unless no delimiter follows
the first token (or there is no token), in which case nothing is
overwritten.  This matters because `msh_loop` re-reads `tempLine` after
`msh_split_line(tempLine)` has run over it. -/
def truncAt (p : Char → Bool) (t : List Char) : List Char :=
  if ((t.dropWhile p).dropWhile (fun c => !p c)).isEmpty then t
  else t.takeWhile p ++ (t.dropWhile p).takeWhile (fun c => !p c)

/-- One dispatched segment of a line: the text handed to `msh_split_line`
and the action taken on the resulting token vector. -/
structure LoopEvent where
  seg : List Char
  act : Action
deriving DecidableEq, Repr

/-- The loop body over the remaining segments (src/msh.c lines 700-724),
with `tl` the current C string at `tempLine`.  Each iteration re-evaluates
`flag = strchr(tempLine, '|')` against `tl`; when the flag is set the
dispatched text is `tl` itself (`token = tempLine`) and its tokenization
truncates the buffer (`truncAt`); otherwise the iteration tokenizes its
own segment, whose storage is disjoint from `tl`, so `tl` is unchanged
(when the flag is clear, `tl` is also never dispatched, and the in-place
truncation of the first segment's region cannot introduce a `'|'` — a
prefix of a marker-free string is marker-free — so carrying `tl`
unmodified in that branch is observationally faithful).  The `&& status`
in the loop condition stops the iteration when the previous status was 0;
a `crash` from `msh_pipe` aborts the whole process (`none`). -/
def runSegs (pipeOk : Bool) :
    List (List Char) → List Char → Int → Option (List LoopEvent × Int)
  | [], _, st => some ([], st)
  | s :: rest, tl, st =>
    if st = 0 then some ([], st)
    else if tl.contains '|' then
      match pipeRunRet (msh_pipe pipeOk (msh_split_line tl)) with
      | none => none
      | some r =>
        match runSegs pipeOk rest (truncAt isDelim tl) r with
        | none => none
        | some (evs, stF) =>
          some (⟨tl, .pipeline (msh_split_line tl)⟩ :: evs, stF)
    else
      match runSegs pipeOk rest tl (msh_executeRet (msh_split_line s)) with
      | none => none
      | some (evs, stF) =>
        some (⟨s, msh_executeAction (msh_split_line s)⟩ :: evs, stF)

/-- Processing of one input line by `msh_loop`'s inner loop (src/msh.c
lines 695-733), starting from continuation status `st0` (the C `status`
variable, which is uninitialized when the first line is processed).  The
result is the dispatched segments and the final status — 0 makes the outer
`while (status)` terminate the REPL — or `none` if the process crashed. -/
def processLine (pipeOk : Bool) (st0 : Int) (line : List Char) :
    Option (List LoopEvent × Int) :=
  runSegs pipeOk (strtokSegs line) (tempLineStr line) st0

/-! ## Spec-side vocabulary -/

/-- The space-separated join of a token list, as the spec's "single joined
argument value (space-separated)". -/
def spaceJoin : List String → String
  | [] => ""
  | [t] => t
  | t :: ts => t ++ " " ++ spaceJoin ts

/-- The amended routing discipline of `msh_loop`: every dispatched event
either tokenizes its own segment and dispatches the result through
`msh_execute` (builtin on a first-token match, else external), or pipes
the current `tempLine` string — the line's first segment
(`tempLineStr line`) or the in-place truncation its own tokenization left
behind (`truncAt`) — because that string contains a pipe marker.  In
particular a segment other than the first is never routed to the Pipeline
Launcher by its own pipe marker. -/
def routedPer (line : List Char) (ev : LoopEvent) : Bool :=
  decide (ev.seg ∈ strtokSegs line ∧
    ev.act = msh_executeAction (msh_split_line ev.seg)) ||
  decide ((ev.seg = tempLineStr line ∨ ev.seg = truncAt isDelim (tempLineStr line)) ∧
    ev.seg.contains '|' = true ∧ ev.act = Action.pipeline (msh_split_line ev.seg))

end Msh

namespace Msh

/-! ## Claim C1: exec failure inside a pipeline child -/

/-- C1: the claim states that a pipeline child whose exec fails reports the
error and exits with failure status, never returning into the REPL.  The
code does the opposite: neither child branch of `msh_pipe` has a `perror`
or `exit` after `execlp` (contrast `msh_launch`, src/msh.c lines 540-543),
so on exec failure the child falls through to `return 1` and continues
running the interpreter loop.  This theorem evaluates both children at a
failing exec. -/
theorem C1_pipe_child_exec_failure_returns_to_loop :
    ∀ (fdRead fdWrite : Nat) (cmd : String × Option String),
      (consumerChild false fdRead fdWrite cmd).outcome = .returnedToLoop 1 ∧
      (consumerChild false fdRead fdWrite cmd).reportsExecFailure = false ∧
      (producerChild false fdRead fdWrite cmd).outcome = .returnedToLoop 1 ∧
      (producerChild false fdRead fdWrite cmd).reportsExecFailure = false := by
  intro fdRead fdWrite cmd
  refine ⟨rfl, rfl, rfl, rfl⟩

/-! ## Claim C2: pipe creation failure -/

/-- C2: the claim states that a `pipe(2)` failure is reported, spawns no
children, and returns the continuation signal "continue".  The report and
the absence of children hold, but `msh_pipe` returns 0 (src/msh.c line
479) — the terminate signal, contradicting its own doc comment "Always
returns 1" — so the whole REPL stops: on line `"ls|wc & echo hi"` with a
failing pipe call, the second segment is never dispatched and the final
status is 0, which ends the outer `while (status)` loop. -/
theorem C2_pipe_failure_returns_terminate :
    msh_pipe false ["ls", "|", "wc"] = .pipeFailed ∧
    pipeRunRet (msh_pipe false ["ls", "|", "wc"]) = some 0 ∧
    processLine false 1 ("ls|wc & echo hi".toList) =
      some ([⟨"ls|wc ".toList, .pipeline ["ls|wc"]⟩], 0) := by
  refine ⟨by decide, by decide, by decide⟩

/-! ## Claim C3: routing of segments -/

/-- C3 counterexample: on the line `"ls & cat|wc"` the second segment's raw
text `" cat|wc"` contains the pipe marker, yet it is dispatched to
`msh_execute` (as the external command `cat|wc`), not to the Pipeline
Launcher: the flag is `strchr(tempLine, '|')`, and `tempLine` is the first
segment `"ls "` after `strtok_r` severed the buffer at the `'&'`. -/
theorem C3_counterexample_second_segment_pipe_ignored :
    ('|' ∈ " cat|wc".toList) ∧
    strtokSegs ("ls & cat|wc".toList) = ["ls ".toList, " cat|wc".toList] ∧
    processLine true 1 ("ls & cat|wc".toList) =
      some ([⟨"ls ".toList, .execExternal ["ls"]⟩,
             ⟨" cat|wc".toList, .execExternal ["cat|wc"]⟩], 1) := by
  refine ⟨by decide, by decide, by decide⟩

/-! ## Claim C6: malformed pipe segment -/

/-- C6: the claim states a malformed pipe segment (no token after the last
marker) is reported and non-fatal.  In fact for tokens `["ls", "|"]` the
incremented `pipeLoc` indexes the `NULL` sentinel and
`strcpy(outputArgs, args[pipeLoc])` dereferences `NULL` (src/msh.c line
460): no message is printed and the interpreter crashes — on the line
`"ls |"` the whole REPL run aborts. -/
theorem C6_malformed_pipe_segment_crashes :
    (∀ pipeOk, msh_pipe pipeOk ["ls", "|"] = .crash) ∧
    processLine true 1 ("ls |".toList) = none := by
  refine ⟨by decide, by decide⟩

/-! ## Claim C9: `cd` without argument -/

/-- C9: `msh_cd` with `args[1] == NULL` prints the usage message to
standard error, calls `chdir` on nothing (the working directory is left
unchanged), reports no `chdir` failure, and returns 1 ("continue")
(src/msh.c lines 375-386). -/
theorem C9_cd_without_argument (chdirOk : String → Bool) (args : List String)
    (h : args.get? 1 = none) :
    msh_cd chdirOk args =
      { usageToStderr := true, chdirCalled := none,
        chdirFailReported := false, ret := 1 } := by
  unfold msh_cd
  rw [h]

/-- Witness for C9 at the concrete vector `["cd"]`. -/
theorem C9_cd_without_argument_witness :
    (["cd"] : List String).get? 1 = none ∧
    msh_cd (fun _ => true) ["cd"] =
      { usageToStderr := true, chdirCalled := none,
        chdirFailReported := false, ret := 1 } :=
  ⟨by decide, C9_cd_without_argument (fun _ => true) ["cd"] (by decide)⟩

/-! ## Auxiliary lemmas about the `msh_pipe` argument partition -/

lemma takeWhile_ne_pipe_append (xs ys : List String) (hx : "|" ∉ xs) :
    (xs ++ "|" :: ys).takeWhile (fun t => t ≠ "|") = xs := by
  induction xs with
  | nil => simp [List.takeWhile_cons]
  | cons x xs ih =>
    have hx0 : x ≠ "|" := fun h => hx (h ▸ List.mem_cons_self x xs)
    have hx1 : "|" ∉ xs := fun h => hx (List.mem_cons_of_mem x h)
    simp only [List.cons_append, List.takeWhile_cons]
    simp [hx0]
    simpa using ih hx1

lemma lastPipeAux_no_pipe (ts : List String) :
    ∀ (i : Nat) (acc : Int), "|" ∉ ts → lastPipeAux i ts acc = acc := by
  induction ts with
  | nil => intro i acc _; rfl
  | cons t rest ih =>
    intro i acc h
    have ht : t ≠ "|" := fun he => h (he ▸ List.mem_cons_self t rest)
    have hrest : "|" ∉ rest := fun he => h (List.mem_cons_of_mem t he)
    simp [lastPipeAux, ht, ih _ _ hrest]

lemma lastPipeAux_append (xs ys : List String) (hy : "|" ∉ ys) :
    ∀ (i : Nat) (acc : Int),
      lastPipeAux i (xs ++ "|" :: ys) acc = ((i + xs.length : Nat) : Int) := by
  induction xs with
  | nil =>
    intro i acc
    simp [lastPipeAux, lastPipeAux_no_pipe ys _ _ hy]
  | cons x xs ih =>
    intro i acc
    simp only [List.cons_append, lastPipeAux, List.append_eq]
    rw [ih (i + 1) (if x = "|" then (i : Int) else acc)]
    congr 1
    simp only [List.length_cons]
    omega

lemma get_append_cons {α : Type} (L M : List α) (x : α) :
    (L ++ x :: M).get? L.length = some x := by
  induction L with
  | nil => rfl
  | cons a L ih =>
    simp only [List.cons_append, List.length_cons, List.get?_cons_succ]
    exact ih

lemma drop_append_cons {α : Type} (L M : List α) :
    (L ++ M).drop L.length = M := by
  induction L with
  | nil => rfl
  | cons a L ih =>
    simp only [List.cons_append, List.length_cons, List.drop_succ_cons]
    exact ih

lemma append_space_ne_newline (a t : String) : a ++ " " ++ t ≠ "\n" := by
  intro h
  have hd : (a ++ " " ++ t).data = ("\n" : String).data := congrArg String.data h
  have h1 : (" " : String).data = [' '] := rfl
  have h2 : ("\n" : String).data = ['\n'] := rfl
  rw [String.data_append, String.data_append, h1, h2] at hd
  have hl := congrArg List.length hd
  simp only [List.length_append, List.length_cons, List.length_nil] at hl
  have ha : a.data = [] := List.length_eq_zero.mp (by omega)
  have ht : t.data = [] := List.length_eq_zero.mp (by omega)
  rw [ha, ht] at hd
  exact absurd hd (by decide)

lemma spaceJoin_append_space (a t : String) (rest : List String) :
    spaceJoin ((a ++ " " ++ t) :: rest) = a ++ " " ++ spaceJoin (t :: rest) := by
  cases rest with
  | nil => rfl
  | cons r rs =>
    show (a ++ " " ++ t) ++ " " ++ spaceJoin (r :: rs) =
      a ++ " " ++ (t ++ " " ++ spaceJoin (r :: rs))
    simp [String.append_assoc]

lemma foldl_joinAcc_ne (rest : List String) :
    ∀ acc : String, acc ≠ "\n" →
      rest.foldl joinAcc acc = spaceJoin (acc :: rest) ∧ spaceJoin (acc :: rest) ≠ "\n" := by
  induction rest with
  | nil => intro acc h; exact ⟨rfl, h⟩
  | cons t rs ih =>
    intro acc h
    have hj : joinAcc acc t = acc ++ " " ++ t := by simp [joinAcc, h]
    have hne := append_space_ne_newline acc t
    have hih := ih (acc ++ " " ++ t) hne
    constructor
    · show List.foldl joinAcc (joinAcc acc t) rs = _
      rw [hj, hih.1, spaceJoin_append_space]
      rfl
    · have h2 := hih.2
      rw [spaceJoin_append_space] at h2
      exact h2

lemma foldl_joinAcc (ts : List String) (hts : "\n" ∉ ts) :
    ts.foldl joinAcc "\n" = (if ts = [] then "\n" else spaceJoin ts) ∧
      (ts ≠ [] → spaceJoin ts ≠ "\n") := by
  cases ts with
  | nil => exact ⟨rfl, fun h => absurd rfl h⟩
  | cons t rs =>
    have ht : t ≠ "\n" := fun he => hts (he ▸ List.mem_cons_self t rs)
    have h0 : joinAcc "\n" t = t := by simp [joinAcc]
    have h := foldl_joinAcc_ne rs t ht
    refine ⟨?_, fun _ => h.2⟩
    show List.foldl joinAcc (joinAcc "\n" t) rs = _
    rw [h0, h.1]
    simp

/-- Structure of `msh_pipe` on a well-formed vector: the producer is
`args[0]` with the join of the tokens before the **first** marker, the
consumer is the token after the **last** marker with the join of the
following tokens.  `prest`/`rest1` split the tail at the first marker,
`frest`/`q0 :: qrest` split it at the last one. -/
lemma msh_pipe_cons (pipeOk : Bool) (a0 : String) (rest : List String) :
    msh_pipe pipeOk (a0 :: rest) =
      match (a0 :: rest).get? (lastPipeIdx (a0 :: rest) + 1).toNat with
      | none => .crash
      | some outputArgs =>
        if pipeOk then
          .launched
            (execPair a0 ((rest.takeWhile (fun t => t ≠ "|")).foldl joinAcc "\n"))
            (execPair outputArgs
              (((a0 :: rest).drop ((lastPipeIdx (a0 :: rest) + 1).toNat + 1)).foldl
                joinAcc "\n"))
        else .pipeFailed := rfl

/-- Structure of `msh_pipe` on a well-formed vector: the producer is
`args[0]` with the join of the tokens before the **first** marker, the
consumer is the token after the **last** marker with the join of the
following tokens.  `prest`/`rest1` split the tail at the first marker,
`frest`/`q0 :: qrest` split it at the last one. -/
lemma msh_pipe_structure (pipeOk : Bool) (p0 : String)
    (prest rest1 frest : List String) (q0 : String) (qrest : List String)
    (heq : prest ++ "|" :: rest1 = frest ++ "|" :: q0 :: qrest)
    (hp : "|" ∉ prest) (hq : "|" ∉ q0 :: qrest)
    (hn1 : "\n" ∉ prest) (hn2 : "\n" ∉ qrest) :
    msh_pipe pipeOk (p0 :: (prest ++ "|" :: rest1)) =
      if pipeOk then
        .launched (p0, if prest = [] then none else some (spaceJoin prest))
                  (q0, if qrest = [] then none else some (spaceJoin qrest))
      else .pipeFailed := by
  have hlast : lastPipeIdx (p0 :: (prest ++ "|" :: rest1)) =
      ((1 + frest.length : Nat) : Int) := by
    show lastPipeAux 1 ((p0 :: (prest ++ "|" :: rest1)).drop 1) (-1) = _
    rw [show (p0 :: (prest ++ "|" :: rest1)).drop 1 = prest ++ "|" :: rest1 from rfl, heq]
    exact lastPipeAux_append frest (q0 :: qrest) hq 1 (-1)
  have hloc : (lastPipeIdx (p0 :: (prest ++ "|" :: rest1)) + 1).toNat =
      frest.length + 2 := by
    rw [hlast]; omega
  have hget : (p0 :: (prest ++ "|" :: rest1)).get? (frest.length + 2) = some q0 := by
    rw [heq]
    have hsplit : p0 :: (frest ++ "|" :: q0 :: qrest) =
        (p0 :: frest ++ ["|"]) ++ q0 :: qrest := by simp
    have hlen : (p0 :: frest ++ ["|"]).length = frest.length + 2 := by
      simp
    rw [hsplit, ← hlen]
    exact get_append_cons _ _ _
  have hdrop : (p0 :: (prest ++ "|" :: rest1)).drop (frest.length + 2 + 1) = qrest := by
    rw [heq]
    have hsplit : p0 :: (frest ++ "|" :: q0 :: qrest) =
        (p0 :: frest ++ ["|", q0]) ++ qrest := by simp
    have hlen : (p0 :: frest ++ ["|", q0]).length = frest.length + 2 + 1 := by
      simp
    rw [hsplit, ← hlen]
    exact drop_append_cons _ _
  have htake : (prest ++ "|" :: rest1).takeWhile (fun t => t ≠ "|") = prest :=
    takeWhile_ne_pipe_append prest rest1 hp
  have hin := foldl_joinAcc prest hn1
  have hout := foldl_joinAcc qrest hn2
  rw [msh_pipe_cons, hloc, hget, htake, hdrop, hin.1, hout.1]
  by_cases hpre : prest = []
  · by_cases hqr : qrest = []
    · simp [execPair, hpre, hqr]
    · simp [execPair, hpre, hqr, hout.2 hqr]
  · by_cases hqr : qrest = []
    · simp [execPair, hpre, hqr, hin.2 hpre]
    · simp [execPair, hpre, hqr, hin.2 hpre, hout.2 hqr]

/-! ## Claim C4: which marker partitions the segment -/

/-- C4 counterexample: on `["a", "b", "|", "c", "|", "d"]` the consumer is
taken from after the last marker (`"d"`), but the producer's loop
(src/msh.c line 435) stops at the **first** `"|"`: its extra argument is
`"b"`, not the join `"b | c"` of all tokens before the last marker as the
claim requires. -/
theorem C4_counterexample_producer_stops_at_first_marker :
    msh_pipe true ["a", "b", "|", "c", "|", "d"] =
      .launched ("a", some "b") ("d", none) ∧
    "b" ≠ spaceJoin ["b", "|", "c"] := by
  refine ⟨by decide, by decide⟩

/-- C4 amended: the consumer command is taken from the tokens after the
last marker, but the producer command is taken from the tokens before the
**first** marker (the `inputArgsV` loop stops at the first `"|"`, the
`pipeLoc` loop keeps the last).  `prest`/`rest1` split the token tail at
the first marker, `frest`/`q0 :: qrest` at the last; no token is the bare
newline string (tokens split on `MSH_TOK_DELIM` never are). -/
theorem C4_amended_consumer_last_producer_first (pipeOk : Bool) (p0 : String)
    (prest rest1 frest : List String) (q0 : String) (qrest : List String)
    (heq : prest ++ "|" :: rest1 = frest ++ "|" :: q0 :: qrest)
    (hp : "|" ∉ prest) (hq : "|" ∉ q0 :: qrest)
    (hn1 : "\n" ∉ prest) (hn2 : "\n" ∉ qrest) :
    msh_pipe pipeOk (p0 :: (prest ++ "|" :: rest1)) =
      if pipeOk then
        .launched (p0, if prest = [] then none else some (spaceJoin prest))
                  (q0, if qrest = [] then none else some (spaceJoin qrest))
      else .pipeFailed :=
  msh_pipe_structure pipeOk p0 prest rest1 frest q0 qrest heq hp hq hn1 hn2

/-- Witness for the amended C4 on `["a", "b", "|", "c", "|", "d"]`:
producer `("a", "b")` (before the first marker), consumer `("d", no
argument)` (after the last marker). -/
theorem C4_amended_witness :
    msh_pipe true ("a" :: (["b"] ++ "|" :: ["c", "|", "d"])) =
      if true then
        PipeRun.launched ("a", if (["b"] : List String) = [] then none
            else some (spaceJoin ["b"]))
          ("d", if ([] : List String) = [] then none else some (spaceJoin []))
      else PipeRun.pipeFailed :=
  C4_amended_consumer_last_producer_first true "a" ["b"] ["c", "|", "d"]
    ["b", "|", "c"] "d" [] (by decide) (by decide) (by decide) (by decide) (by decide)

/-! ## Claim C5: one consolidated extra argument per side -/

/-- C5: on a segment with a single locatable pipe marker, each side is
exec'd as its first token plus at most one extra argument — the
space-separated join of the side's remaining tokens — and with no extra
argument when there are no remaining tokens (src/msh.c lines 434-472,
488-495, 509-516). -/
theorem C5_one_consolidated_extra_argument (p0 q0 : String)
    (prest qrest : List String)
    (hp : "|" ∉ p0 :: prest) (hq : "|" ∉ q0 :: qrest)
    (hn : "\n" ∉ p0 :: prest ++ "|" :: q0 :: qrest) :
    msh_pipe true (p0 :: (prest ++ "|" :: q0 :: qrest)) =
      .launched (p0, if prest = [] then none else some (spaceJoin prest))
                (q0, if qrest = [] then none else some (spaceJoin qrest)) := by
  have hp1 : "|" ∉ prest := fun h => hp (List.mem_cons_of_mem p0 h)
  have hn1 : "\n" ∉ prest := fun h =>
    hn (List.mem_cons_of_mem p0 (List.mem_append_left _ h))
  have hn2 : "\n" ∉ qrest := fun h =>
    hn (List.mem_cons_of_mem p0 (List.mem_append_right _
      (List.mem_cons_of_mem _ (List.mem_cons_of_mem _ h))))
  have h := msh_pipe_structure true p0 prest (q0 :: qrest) prest q0 qrest rfl
    hp1 hq hn1 hn2
  simpa using h

/-- Witness for C5 on `["ls", "-l", "|", "wc"]`: producer
`("ls", "-l")`, consumer `("wc", no extra argument)`. -/
theorem C5_witness :
    msh_pipe true ("ls" :: (["-l"] ++ "|" :: "wc" :: [])) =
      PipeRun.launched ("ls", if (["-l"] : List String) = [] then none
          else some (spaceJoin ["-l"]))
        ("wc", if ([] : List String) = [] then none else some (spaceJoin [])) :=
  C5_one_consolidated_extra_argument "ls" "wc" ["-l"] []
    (by decide) (by decide) (by decide)

/-! ## Claim C8: the tokenizer -/

lemma modifyHead_self {α : Type} (l : List α) : l.modifyHead (fun t => t) = l := by
  cases l <;> rfl

lemma isEmpty_append_singleton {α : Type} (xs : List α) (x : α) :
    (xs ++ [x]).isEmpty = false := by
  cases xs <;> rfl

lemma mem_reverse_append_singleton {α : Type} {c x : α} {xs : List α}
    (h : c ∈ xs.reverse ++ [x]) : c ∈ x :: xs := by
  rcases List.mem_append.mp h with h1 | h1
  · exact List.mem_cons_of_mem x (List.mem_reverse.mp h1)
  · have hx : c = x := by simpa using h1
    rw [hx]
    exact List.mem_cons_self x xs

lemma strtokAux_eq_splitOnP (p : Char → Bool) (l : List Char) :
    ∀ cur : List Char,
      strtokAux p l cur =
        ((l.splitOnP p).modifyHead (fun t => cur.reverse ++ t)).filter
          (fun t => !t.isEmpty) := by
  induction l with
  | nil =>
    intro cur
    cases cur with
    | nil => rfl
    | cons c cs =>
      simp [strtokAux, List.splitOnP_nil, List.modifyHead, List.filter]
      rw [isEmpty_append_singleton]
      rfl
  | cons c cs ih =>
    intro cur
    by_cases hc : p c = true
    · cases cur with
      | nil =>
        simp only [strtokAux, hc, if_true, List.isEmpty_nil, List.splitOnP_cons]
        rw [ih []]
        simp [modifyHead_self, List.filter]
      | cons x xs =>
        simp only [strtokAux, hc, if_true, List.isEmpty_cons, List.splitOnP_cons]
        rw [ih []]
        simp [modifyHead_self, List.filter]
        rw [isEmpty_append_singleton]
        rfl
    · have hc2 : p c = false := by
        cases h : p c
        · rfl
        · exact absurd h hc
      simp only [strtokAux, hc2, Bool.false_eq_true, if_false, List.splitOnP_cons]
      rw [ih (c :: cur)]
      rw [List.modifyHead_modifyHead]
      congr 1
      congr 1
      funext t
      simp

lemma strtokenize_eq_splitOnP (p : Char → Bool) (l : List Char) :
    strtokenize p l = (l.splitOnP p).filter (fun t => !t.isEmpty) := by
  have h := strtokAux_eq_splitOnP p l []
  simpa [strtokenize, modifyHead_self] using h

lemma strtokAux_sound (p : Char → Bool) (l : List Char) :
    ∀ cur : List Char, (∀ c ∈ cur, p c = false) →
      ∀ t ∈ strtokAux p l cur, t ≠ [] ∧ ∀ c ∈ t, p c = false := by
  induction l with
  | nil =>
    intro cur hcur t ht
    cases cur with
    | nil => simp [strtokAux] at ht
    | cons x xs =>
      simp [strtokAux] at ht
      subst ht
      refine ⟨by simp, ?_⟩
      intro c hc
      exact hcur c (mem_reverse_append_singleton hc)
  | cons c cs ih =>
    intro cur hcur t ht
    by_cases hc : p c = true
    · cases cur with
      | nil =>
        simp only [strtokAux, hc, if_true, List.isEmpty_nil] at ht
        exact ih [] (by simp) t ht
      | cons x xs =>
        simp only [strtokAux, hc, if_true, List.isEmpty_cons] at ht
        rcases List.mem_cons.mp ht with h1 | h2
        · subst h1
          refine ⟨by simp, ?_⟩
          intro d hd
          rw [List.reverse_cons] at hd
          exact hcur d (mem_reverse_append_singleton hd)
        · exact ih [] (by simp) t h2
    · have hc2 : p c = false := by
        cases h : p c
        · rfl
        · exact absurd h hc
      simp only [strtokAux, hc2, Bool.false_eq_true, if_false] at ht
      refine ih (c :: cur) ?_ t ht
      intro d hd
      rcases List.mem_cons.mp hd with h1 | h2
      · subst h1; exact hc2
      · exact hcur d h2

/-- C8: `msh_split_line` returns the ordered sequence of maximal
delimiter-free substrings of the line — the chunks `splitOnP` produces at
the delimiter positions, with the empty chunks dropped — every token is
non-empty and contains no delimiter character, and on the spec's example
`"  ls   -l\t/tmp\n"` it yields exactly `["ls", "-l", "/tmp"]`.  (The
`NULL` sentinel of the C token array is the end of the returned list.) -/
theorem C8_tokenizer_maximal_runs (l : List Char) :
    msh_split_line l =
      ((l.splitOnP isDelim).filter (fun t => !t.isEmpty)).map (fun t => String.mk t) ∧
    (∀ t ∈ strtokenize isDelim l, t ≠ [] ∧ ∀ c ∈ t, isDelim c = false) ∧
    msh_split_line ("  ls   -l\t/tmp\n".toList) = ["ls", "-l", "/tmp"] := by
  refine ⟨?_, ?_, by decide⟩
  · unfold msh_split_line
    rw [strtokenize_eq_splitOnP]
  · intro t ht
    exact strtokAux_sound isDelim l [] (by simp) t ht

/-! ## Auxiliary lemmas about the segment loop -/

lemma runSegs_nil (pipeOk : Bool) (tl : List Char) (st : Int) :
    runSegs pipeOk [] tl st = some ([], st) := rfl

lemma runSegs_zero (pipeOk : Bool) (l : List (List Char)) (tl : List Char) :
    runSegs pipeOk l tl 0 = some ([], 0) := by
  cases l <;> rfl

lemma runSegs_cons_exec (pipeOk : Bool) (s : List Char) (rest : List (List Char))
    (tl : List Char) (st : Int) (hst : ¬st = 0) (hpipe : tl.contains '|' = false) :
    runSegs pipeOk (s :: rest) tl st =
      match runSegs pipeOk rest tl (msh_executeRet (msh_split_line s)) with
      | none => none
      | some (evs, stF) =>
        some (⟨s, msh_executeAction (msh_split_line s)⟩ :: evs, stF) := by
  simp only [runSegs]
  rw [if_neg hst, hpipe]
  simp

lemma runSegs_cons_pipe_crash (pipeOk : Bool) (s : List Char)
    (rest : List (List Char)) (tl : List Char) (st : Int) (hst : ¬st = 0)
    (hpipe : tl.contains '|' = true)
    (hpr : pipeRunRet (msh_pipe pipeOk (msh_split_line tl)) = none) :
    runSegs pipeOk (s :: rest) tl st = none := by
  simp only [runSegs]
  rw [if_neg hst, hpipe]
  simp [hpr]

lemma runSegs_cons_pipe_ok (pipeOk : Bool) (s : List Char)
    (rest : List (List Char)) (tl : List Char) (st : Int) (r : Int) (hst : ¬st = 0)
    (hpipe : tl.contains '|' = true)
    (hpr : pipeRunRet (msh_pipe pipeOk (msh_split_line tl)) = some r) :
    runSegs pipeOk (s :: rest) tl st =
      match runSegs pipeOk rest (truncAt isDelim tl) r with
      | none => none
      | some (evs, stF) =>
        some (⟨tl, .pipeline (msh_split_line tl)⟩ :: evs, stF) := by
  simp only [runSegs]
  rw [if_neg hst, hpipe]
  simp [hpr]

lemma all_takeWhile {α : Type} (p : α → Bool) (l : List α) :
    ∀ c ∈ l.takeWhile p, p c = true := by
  induction l with
  | nil => intro c hc; cases hc
  | cons a as ih =>
    intro c hc
    by_cases ha : p a = true
    · rw [List.takeWhile_cons, if_pos ha] at hc
      rcases List.mem_cons.mp hc with h | h
      · rw [h]; exact ha
      · exact ih c h
    · rw [List.takeWhile_cons, if_neg ha] at hc
      cases hc

lemma dropWhile_all_nil {α : Type} (p : α → Bool) (l : List α)
    (h : ∀ c ∈ l, p c = true) : l.dropWhile p = [] := by
  induction l with
  | nil => rfl
  | cons a as ih =>
    rw [List.dropWhile_cons, if_pos (h a (List.mem_cons_self a as))]
    exact ih (fun c hc => h c (List.mem_cons_of_mem a hc))

lemma dropWhile_append_all {α : Type} (p : α → Bool) (w X : List α)
    (hw : ∀ c ∈ w, p c = true) : (w ++ X).dropWhile p = X.dropWhile p := by
  induction w with
  | nil => rfl
  | cons a as ih =>
    rw [List.cons_append, List.dropWhile_cons, if_pos (hw a (List.mem_cons_self a as))]
    exact ih (fun c hc => hw c (List.mem_cons_of_mem a hc))

lemma truncAt_stable (p : Char → Bool) (w tok : List Char)
    (hw : ∀ c ∈ w, p c = true) (htok : ∀ c ∈ tok, p c = false) :
    truncAt p (w ++ tok) = w ++ tok := by
  have hd1 : (w ++ tok).dropWhile p = tok.dropWhile p := dropWhile_append_all p w tok hw
  have hd2 : tok.dropWhile p = tok := by
    cases tok with
    | nil => rfl
    | cons c cs =>
      rw [List.dropWhile_cons, if_neg]
      rw [htok c (List.mem_cons_self c cs)]
      simp
  have hd3 : tok.dropWhile (fun c => !p c) = [] :=
    dropWhile_all_nil _ tok (fun c hc => by rw [htok c hc]; rfl)
  unfold truncAt
  rw [hd1, hd2, hd3]
  simp

lemma truncAt_idem (p : Char → Bool) (t : List Char) :
    truncAt p (truncAt p t) = truncAt p t := by
  by_cases hemp : ((t.dropWhile p).dropWhile (fun c => !p c)).isEmpty = true
  · have h1 : truncAt p t = t := by unfold truncAt; rw [if_pos hemp]
    rw [h1]
    exact h1
  · have h1 : truncAt p t =
        t.takeWhile p ++ (t.dropWhile p).takeWhile (fun c => !p c) := by
      unfold truncAt; rw [if_neg hemp]
    rw [h1]
    refine truncAt_stable p _ _ (all_takeWhile p t) (fun c hc => ?_)
    have h2 := all_takeWhile (fun c => !p c) (t.dropWhile p) c hc
    simp at h2
    exact h2

lemma runSegs_routed (pipeOk : Bool) (line : List Char) :
    ∀ (segs : List (List Char)) (tl : List Char) (st : Int)
      (evs : List LoopEvent) (stF : Int),
      (∀ s ∈ segs, s ∈ strtokSegs line) →
      (tl = tempLineStr line ∨ tl = truncAt isDelim (tempLineStr line)) →
      runSegs pipeOk segs tl st = some (evs, stF) →
      evs.all (routedPer line) = true := by
  intro segs
  induction segs with
  | nil =>
    intro tl st evs stF _ _ h
    rw [runSegs_nil] at h
    cases h
    rfl
  | cons s rest ih =>
    intro tl st evs stF hsub htl h
    have hsub1 : ∀ u ∈ rest, u ∈ strtokSegs line :=
      fun u hu => hsub u (List.mem_cons_of_mem s hu)
    by_cases hst : st = 0
    · subst hst
      rw [runSegs_zero] at h
      cases h
      rfl
    · cases hpipe : tl.contains '|' with
      | false =>
        rw [runSegs_cons_exec _ _ _ _ _ hst hpipe] at h
        cases hrec : runSegs pipeOk rest tl (msh_executeRet (msh_split_line s)) with
        | none => rw [hrec] at h; cases h
        | some pr =>
          obtain ⟨evs1, stF1⟩ := pr
          rw [hrec] at h
          have hv := Option.some.inj h
          have hevs : evs = ⟨s, msh_executeAction (msh_split_line s)⟩ :: evs1 :=
            (congrArg Prod.fst hv).symm
          rw [hevs, List.all_cons]
          have h1 : routedPer line ⟨s, msh_executeAction (msh_split_line s)⟩ = true := by
            simp only [routedPer, Bool.or_eq_true, decide_eq_true_eq]
            exact Or.inl ⟨hsub s (List.mem_cons_self s rest), trivial⟩
          have h2 := ih tl (msh_executeRet (msh_split_line s)) evs1 stF1 hsub1 htl hrec
          rw [h1, h2]
          rfl
      | true =>
        cases hpr : pipeRunRet (msh_pipe pipeOk (msh_split_line tl)) with
        | none =>
          rw [runSegs_cons_pipe_crash _ _ _ _ _ hst hpipe hpr] at h
          cases h
        | some r =>
          rw [runSegs_cons_pipe_ok _ _ _ _ _ r hst hpipe hpr] at h
          cases hrec : runSegs pipeOk rest (truncAt isDelim tl) r with
          | none => rw [hrec] at h; cases h
          | some pr2 =>
            obtain ⟨evs1, stF1⟩ := pr2
            rw [hrec] at h
            have hv := Option.some.inj h
            have hevs : evs = ⟨tl, .pipeline (msh_split_line tl)⟩ :: evs1 :=
              (congrArg Prod.fst hv).symm
            rw [hevs, List.all_cons]
            have h1 : routedPer line ⟨tl, .pipeline (msh_split_line tl)⟩ = true := by
              simp only [routedPer, Bool.or_eq_true, decide_eq_true_eq]
              exact Or.inr ⟨htl, hpipe, trivial⟩
            have htl2 : truncAt isDelim tl = tempLineStr line ∨
                truncAt isDelim tl = truncAt isDelim (tempLineStr line) := by
              rcases htl with he | he
              · exact Or.inr (by rw [he])
              · exact Or.inr (by rw [he, truncAt_idem])
            have h2 := ih (truncAt isDelim tl) r evs1 stF1 hsub1 htl2 hrec
            rw [h1, h2]
            rfl

/-- C3 amended: the routing decision does not depend on the segment's own
text but on the current C string at `tempLine` — initially the line's
first segment (the first `strtok_r` call cut the buffer at the first
`'&'`), and, after `msh_split_line` has tokenized it in place, the
truncation at the first whitespace delimiter.  When that string contains a
pipe marker the dispatched operand is the string itself
(`token = tempLine`); otherwise the iteration tokenizes its own segment
and dispatches by its own first token (builtin match, else external).  In
particular a segment other than the first is never routed to the Pipeline
Launcher by its own pipe marker. -/
theorem C3_amended_routing_by_first_segment (pipeOk : Bool) (st0 : Int)
    (line : List Char) (evs : List LoopEvent) (stF : Int)
    (h : processLine pipeOk st0 line = some (evs, stF)) :
    evs.all (routedPer line) = true := by
  unfold processLine at h
  exact runSegs_routed pipeOk line (strtokSegs line) (tempLineStr line) st0 evs stF
    (fun s hs => hs) (Or.inl rfl) h

/-- Witness for the amended C3 on the line `"a|b"` with one dispatched
pipeline event. -/
theorem C3_amended_witness :
    ([⟨"a|b".toList, Action.pipeline ["a|b"]⟩] : List LoopEvent).all
      (routedPer ("a|b".toList)) = true :=
  C3_amended_routing_by_first_segment true 1 ("a|b".toList)
    [⟨"a|b".toList, Action.pipeline ["a|b"]⟩] 1 (by decide)

/-! ## Claim C7: `exit` inside a multi-segment line -/

/-- C7 counterexample: the line `"x|y & exit"` has a segment whose sole
token is `exit`, but because the `tempLine` string contains a pipe marker
the flag re-routes **every** iteration to `msh_pipe`: the first iteration
pipes the first segment `"x|y "` (truncating the buffer to `"x|y"`), the
second pipes the truncated `"x|y"`, the `exit` builtin is never invoked,
and the final status is 1, so the REPL loop iterates again. -/
theorem C7_counterexample_exit_after_piped_segment :
    msh_split_line (" exit".toList) = ["exit"] ∧
    strtokSegs ("x|y & exit".toList) = ["x|y ".toList, " exit".toList] ∧
    processLine true 1 ("x|y & exit".toList) =
      some ([⟨"x|y ".toList, .pipeline ["x|y"]⟩,
             ⟨"x|y".toList, .pipeline ["x|y"]⟩], 1) := by
  refine ⟨by decide, by decide, by decide⟩

lemma msh_executeRet_head_ne_exit (args : List String)
    (h : args.head? ≠ some "exit") : msh_executeRet args = 1 := by
  cases args with
  | nil => rfl
  | cons a0 rest =>
    have ha : a0 ≠ "exit" := fun he => h (by rw [he]; rfl)
    show (if builtin_str.contains a0 = true then builtinRet a0 else 1) = 1
    by_cases hb : builtin_str.contains a0 = true
    · rw [if_pos hb]
      show (if a0 = "exit" then (0 : Int) else 1) = 1
      rw [if_neg ha]
    · rw [if_neg hb]

lemma runSegs_until_exit (pipeOk : Bool) (tl : List Char)
    (hnopipe : tl.contains '|' = false) (s : List Char)
    (suf : List (List Char)) (hexit : msh_split_line s = ["exit"]) :
    ∀ pref : List (List Char),
      (∀ t ∈ pref, (msh_split_line t).head? ≠ some "exit") →
      runSegs pipeOk (pref ++ s :: suf) tl 1 =
        some (pref.map (fun t => ⟨t, msh_executeAction (msh_split_line t)⟩) ++
          [⟨s, Action.execBuiltin "exit" ["exit"]⟩], 0) := by
  intro pref
  induction pref with
  | nil =>
    intro _
    rw [List.nil_append, runSegs_cons_exec _ _ _ _ _ (by decide) hnopipe, hexit]
    have hret : msh_executeRet ["exit"] = 0 := by decide
    have hact : msh_executeAction ["exit"] = Action.execBuiltin "exit" ["exit"] := by
      decide
    rw [hret, hact, runSegs_zero]
    rfl
  | cons t rest ih =>
    intro hp
    have ht : (msh_split_line t).head? ≠ some "exit" := hp t (List.mem_cons_self t rest)
    have hrest : ∀ u ∈ rest, (msh_split_line u).head? ≠ some "exit" :=
      fun u hu => hp u (List.mem_cons_of_mem t hu)
    rw [List.cons_append, runSegs_cons_exec _ _ _ _ _ (by decide) hnopipe,
      msh_executeRet_head_ne_exit _ ht, ih hrest]
    rfl

/-- C7 amended: **provided the first segment of the line contains no pipe
marker** (otherwise see the counterexample) and no earlier segment's first
token is `exit`, a segment whose sole token is `exit` makes the builtin
return the terminate signal and the REPL stops after that segment: the
dispatched events are exactly the earlier segments followed by the `exit`
builtin, no later segment runs, and the final status 0 ends the outer
`while (status)` loop. -/
theorem C7_amended_exit_stops_line (pipeOk : Bool) (line : List Char)
    (pref suf : List (List Char)) (s : List Char)
    (hsegs : strtokSegs line = pref ++ s :: suf)
    (hnopipe : (tempLineStr line).contains '|' = false)
    (hexit : msh_split_line s = ["exit"])
    (hpref : ∀ t ∈ pref, (msh_split_line t).head? ≠ some "exit") :
    processLine pipeOk 1 line =
      some (pref.map (fun t => ⟨t, msh_executeAction (msh_split_line t)⟩) ++
        [⟨s, Action.execBuiltin "exit" ["exit"]⟩], 0) := by
  unfold processLine
  rw [hsegs]
  exact runSegs_until_exit pipeOk (tempLineStr line) hnopipe s suf hexit pref hpref

/-- Witness for the amended C7 on the line `"ls & exit & pwd"`: the `ls`
segment runs, the `exit` segment terminates, the `pwd` segment is never
dispatched. -/
theorem C7_amended_witness :
    processLine true 1 ("ls & exit & pwd".toList) =
      some ((["ls ".toList] : List (List Char)).map
          (fun t => ⟨t, msh_executeAction (msh_split_line t)⟩) ++
        [⟨" exit ".toList, Action.execBuiltin "exit" ["exit"]⟩], 0) :=
  C7_amended_exit_stops_line true ("ls & exit & pwd".toList)
    ["ls ".toList] [" pwd".toList] (" exit ".toList)
    (by decide) (by decide) (by decide) (by decide)

/-! ## Claim C10: the uninitialized `status` guard -/

/-- C10: `int status` of `msh_loop` is read by the inner loop condition
`(token = strtok_r(...)) && status` before any assignment when the first
line is processed, so the model takes the initial value as a parameter; on
the same input line `"ls"` the first segment is dispatched when that
unconstrained value is 1 and not dispatched when it is 0 — the observable
behaviour is not determined by the input. -/
theorem C10_first_segment_depends_on_uninitialized_status :
    processLine true 1 ("ls".toList) =
      some ([⟨"ls".toList, .execExternal ["ls"]⟩], 1) ∧
    processLine true 0 ("ls".toList) = some ([], 0) := by
  refine ⟨by decide, by decide⟩

end Msh
